import Mathlib

/-!
Verification of the repository against its natural-language specification.

The repository has three parts:
* `src/problem4/index.js` — three sum-to-n implementations (modelled below as
  `sum_to_n_a`, `sum_to_n_b`, `sum_to_n_c`).
* `src/problem5` — an Express CRUD API; the controller logic of
  `UserController.ts` (`createUser`, `getAllUsers`) is modelled below.
* `src/problem6` — an architecture document only: the score-validation and
  ranking pipeline it describes has no executable source in the repository,
  so those components are modelled from the specification text itself; each
  such definition carries a `Modelled from the spec:` doc comment.

JavaScript numbers are modelled as exact integers (`Int`); every division the
source performs is exact on the integers at which it is applied, as proved
where relevant.
-/

/-! ## Problem 4: the three sum-to-n implementations -/

/-- `sum_to_n_c` from `src/problem4/index.js`: a loop summing `i = 1 .. n`;
for `n ≤ 0` the loop body never runs and the result is `0`. -/
def sum_to_n_c (n : Int) : Int :=
  (((List.range n.toNat).map (fun i => i + 1)).sum : Nat)

/-- `sum_to_n_a` from `src/problem4/index.js`: returns `n` when `n ≤ 1`,
otherwise `n + sum_to_n_c (n - 1)` (the source recursion calls `sum_to_n_c`). -/
def sum_to_n_a (n : Int) : Int :=
  if n ≤ 1 then n else n + sum_to_n_c (n - 1)

/-- `sum_to_n_b` from `src/problem4/index.js`: the closed form
`(n * (n + 1)) / 2`; the division is exact because `n * (n + 1)` is even. -/
def sum_to_n_b (n : Int) : Int :=
  (n * (n + 1)) / 2

theorem two_mul_range_sum (k : Nat) : 2 * ((List.range k).map (fun i => i + 1)).sum = k * (k + 1) := by
  induction k with
  | zero => simp
  | succ m ih =>
      rw [List.range_succ, List.map_append, List.sum_append]
      simp only [List.map_cons, List.map_nil, List.sum_cons, List.sum_nil]
      nlinarith [ih]

theorem two_mul_sum_to_n_c (k : Nat) : 2 * sum_to_n_c (k : Int) = (k : Int) * ((k : Int) + 1) := by
  have hts : ((k : Nat) : Int).toNat = k := by omega
  unfold sum_to_n_c
  rw [hts]
  exact_mod_cast two_mul_range_sum k

theorem sum_to_n_c_nonneg_eq (k : Nat) : sum_to_n_c (k : Int) = ((k : Int) * ((k : Int) + 1)) / 2 := by
  have h := two_mul_sum_to_n_c k
  omega

/-- Claim C8: for every non-negative integer `n` the three implementations of
`src/problem4/index.js` agree and compute `n * (n + 1) / 2`, and for every
integer `n ≤ 1` (negatives included) `sum_to_n_a n` returns `n` itself. -/
theorem sum_to_n_agree (n : Nat) :
    (sum_to_n_a (n : Int) = sum_to_n_b (n : Int) ∧
      sum_to_n_b (n : Int) = sum_to_n_c (n : Int) ∧
      sum_to_n_c (n : Int) = ((n : Int) * ((n : Int) + 1)) / 2) ∧
    ∀ m : Int, m ≤ 1 → sum_to_n_a m = m := by
  constructor
  · have hc := sum_to_n_c_nonneg_eq n
    have hb : sum_to_n_b (n : Int) = ((n : Int) * ((n : Int) + 1)) / 2 := rfl
    refine ⟨?_, by rw [hb, hc], hc⟩
    by_cases h1 : (n : Int) ≤ 1
    · have : n = 0 ∨ n = 1 := by omega
      rcases this with h | h <;> subst h <;> rfl
    · have hn2 : 2 ≤ n := by omega
      have ha : sum_to_n_a (n : Int) = (n : Int) + sum_to_n_c ((n : Int) - 1) := by
        unfold sum_to_n_a
        rw [if_neg h1]
      have hcast : ((n : Int) - 1) = ((n - 1 : Nat) : Int) := by omega
      have hc1 := sum_to_n_c_nonneg_eq (n - 1)
      rw [ha, hcast, hc1, hb]
      have : ((n - 1 : Nat) : Int) = (n : Int) - 1 := by omega
      rw [this]
      have h2 := two_mul_sum_to_n_c n
      have h3 := two_mul_sum_to_n_c (n - 1)
      have hmul : ((n : Int) - 1) * (((n : Int) - 1) + 1) = (n : Int) * (n : Int) - (n : Int) := by ring
      have hmul2 : (n : Int) * ((n : Int) + 1) = (n : Int) * (n : Int) + (n : Int) := by ring
      rw [hmul, hmul2]
      have hsq : (0 : Int) ≤ (n : Int) * (n : Int) - (n : Int) := by
        have := mul_le_mul_of_nonneg_left (le_refl (n : Int)) (Int.ofNat_nonneg n)
        nlinarith [Int.ofNat_nonneg n]
      omega
  · intro m hm
    unfold sum_to_n_a
    rw [if_pos hm]

/-- Witness for C8: evaluates the theorem at `n = 5` and at `m = -3`. -/
theorem sum_to_n_agree_witness :
    (sum_to_n_a 5 = sum_to_n_b 5 ∧ sum_to_n_b 5 = sum_to_n_c 5 ∧
      sum_to_n_c 5 = (5 * (5 + 1)) / 2) ∧ sum_to_n_a (-3) = -3 := by
  have h := sum_to_n_agree 5
  exact ⟨by exact_mod_cast h.1, h.2 (-3) (by decide)⟩

/-! ## Problem 5: `UserController.ts` -/

/-- A stored user record, from `src/problem5/src/models/User.ts` (the fields
relevant to the controller logic). -/
structure UserRec where
  name : String
  email : String
  age : Nat
  role : String
  isActive : Bool
deriving DecidableEq

/-- Response summary of a controller call: HTTP status code and message, as
produced by `createError` / the success paths of `UserController.ts`. -/
structure ApiResponse where
  status : Nat
  message : String
deriving DecidableEq

/-- `createUser` from `src/problem5/src/controllers/UserController.ts`
(lines 118-135), after request validation: if a user with the requested email
already exists it throws a 409 error and creates nothing; otherwise it stores
the user and answers 201.  The store is modelled as the list of users. -/
def createUser (store : List UserRec) (req : UserRec) : ApiResponse × List UserRec :=
  if store.any (fun u => u.email == req.email) then
    (⟨409, "User with this email already exists"⟩, store)
  else
    (⟨201, "User created successfully"⟩, store ++ [req])

/-- Pagination object of `getAllUsers` in `UserController.ts`. -/
structure Pagination where
  page : Nat
  limit : Nat
  total : Nat
  totalPages : Nat
  hasNext : Bool
  hasPrev : Bool
deriving DecidableEq

/-- `getAllUsers` from `src/problem5/src/controllers/UserController.ts`
(lines 48-99), after query validation: `skip = (page-1)*limit`, the returned
users are `skip`-dropped and `limit`-taken from the filtered collection, and
`totalPages = Math.ceil(total / limit)` (exact integer form
`(total + limit - 1) / limit`).  The filtered, `createdAt`-sorted collection
is modelled as the input list. -/
def getAllUsers (collection : List UserRec) (page limit : Nat) :
    List UserRec × Pagination :=
  let skip := (page - 1) * limit
  let users := (collection.drop skip).take limit
  let total := collection.length
  let totalPages := (total + limit - 1) / limit
  (users, ⟨page, limit, total, totalPages, decide (page < totalPages), decide (1 < page)⟩)

/-- Claim C9: on a validated body, `createUser` answers 409 with message
"User with this email already exists" and leaves the store unchanged when the
email is taken, and otherwise creates exactly the requested user with 201. -/
theorem createUser_email_conflict (store : List UserRec) (req : UserRec) :
    ((∃ u ∈ store, u.email = req.email) →
      createUser store req = (⟨409, "User with this email already exists"⟩, store)) ∧
    ((∀ u ∈ store, u.email ≠ req.email) →
      createUser store req =
        (⟨201, "User created successfully"⟩, store ++ [req])) := by
  constructor
  · rintro ⟨u, hu, he⟩
    have : store.any (fun u => u.email == req.email) = true := by
      rw [List.any_eq_true]
      exact ⟨u, hu, by simp [he]⟩
    simp [createUser, this]
  · intro h
    have : store.any (fun u => u.email == req.email) = false := by
      rw [List.any_eq_false]
      intro u hu
      simp [h u hu]
    simp [createUser, this]

/-- Witness for C9: evaluates the theorem on a one-element store, once with a
clashing email and once with a fresh one. -/
theorem createUser_email_conflict_witness :
    createUser [⟨"A", "a@x.io", 30, "user", true⟩] ⟨"B", "a@x.io", 20, "user", true⟩ =
      (⟨409, "User with this email already exists"⟩, [⟨"A", "a@x.io", 30, "user", true⟩]) ∧
    createUser [⟨"A", "a@x.io", 30, "user", true⟩] ⟨"B", "b@x.io", 20, "user", true⟩ =
      (⟨201, "User created successfully"⟩,
        [⟨"A", "a@x.io", 30, "user", true⟩, ⟨"B", "b@x.io", 20, "user", true⟩]) := by
  constructor
  · exact (createUser_email_conflict _ _).1 ⟨⟨"A", "a@x.io", 30, "user", true⟩, by simp, rfl⟩
  · exact (createUser_email_conflict _ _).2 (by intro u hu; simp at hu; subst hu; decide)

/-- A three-element sample collection used by concrete evaluations. -/
def sampleUsers : List UserRec :=
  [⟨"A", "a", 1, "user", true⟩, ⟨"B", "b", 2, "user", true⟩, ⟨"C", "c", 3, "user", true⟩]

/-- Claim C10: for validated query parameters (`page ≥ 1`, `limit ≥ 1`) the
pagination object of `getAllUsers` is internally consistent: `totalPages` is
the ceiling of `total / limit` (characterised as the least `m` with
`total ≤ m * limit`), `hasNext` holds iff `page < totalPages`, `hasPrev`
holds iff `page > 1`, and at most `limit` users are returned. -/
theorem getAllUsers_pagination_consistent (collection : List UserRec)
    (page limit : Nat) (_hp : 1 ≤ page) (hl : 1 ≤ limit) :
    (collection.length ≤ (getAllUsers collection page limit).2.totalPages * limit ∧
      ∀ m : Nat, collection.length ≤ m * limit →
        (getAllUsers collection page limit).2.totalPages ≤ m) ∧
    ((getAllUsers collection page limit).2.hasNext = true ↔
      page < (getAllUsers collection page limit).2.totalPages) ∧
    ((getAllUsers collection page limit).2.hasPrev = true ↔ 1 < page) ∧
    (getAllUsers collection page limit).1.length ≤ limit := by
  have hl0 : 0 < limit := hl
  have hceil : (collection.length + limit - 1) / limit = collection.length ⌈/⌉ limit :=
    (Nat.ceilDiv_eq_add_pred_div collection.length limit).symm
  refine ⟨⟨?_, ?_⟩, ?_, ?_, ?_⟩
  · show collection.length ≤ (collection.length + limit - 1) / limit * limit
    rw [hceil]
    have h := le_smul_ceilDiv (a := limit) (b := collection.length) hl0
    rw [smul_eq_mul] at h
    exact le_of_le_of_eq h (mul_comm _ _)
  · intro m hm
    show (collection.length + limit - 1) / limit ≤ m
    rw [hceil]
    exact (ceilDiv_le_iff_le_mul hl0).2 (le_of_le_of_eq hm (mul_comm m limit))
  · simp [getAllUsers]
  · simp [getAllUsers]
  · simp [getAllUsers]

/-- Witness for C10: evaluates the theorem on a three-element collection with
`page = 2`, `limit = 2`. -/
theorem getAllUsers_pagination_consistent_witness :
    (sampleUsers.length ≤ (getAllUsers sampleUsers 2 2).2.totalPages * 2 ∧
      ∀ m : Nat, sampleUsers.length ≤ m * 2 →
        (getAllUsers sampleUsers 2 2).2.totalPages ≤ m) ∧
    ((getAllUsers sampleUsers 2 2).2.hasNext = true ↔
      2 < (getAllUsers sampleUsers 2 2).2.totalPages) ∧
    ((getAllUsers sampleUsers 2 2).2.hasPrev = true ↔ 1 < 2) ∧
    (getAllUsers sampleUsers 2 2).1.length ≤ 2 :=
  getAllUsers_pagination_consistent sampleUsers 2 2 (by decide) (by decide)

/-! ## Problem 6: the action-validation-and-ranking pipeline

The specification's core (Ingest Gate, Rate Limiter, Score Calculator,
Anti-Cheat Evaluator, Ranking Engine, Event Broadcaster) has no source code in
the repository — `src/problem6` contains design documents only — so every
definition in this part is modelled from the specification text (sections 2-7
of the spec). -/

/-- Modelled from the spec: the outcome recorded on a Score Ledger Entry. -/
inductive Outcome where
  | accepted
  | rejected
deriving DecidableEq

/-- Modelled from the spec: an immutable Score Ledger Entry
`{userId, actionType, delta, resultingTotal, serverTimestamp, nonce, outcome}`. -/
structure LedgerEntry where
  userId : Nat
  actionType : Nat
  delta : Int
  resultingTotal : Int
  serverTimestamp : Nat
  nonce : Nat
  outcome : Outcome
deriving DecidableEq

/-- Modelled from the spec: declared action parameters — the multipliers
(difficulty tier, streak count) the Score Calculator consumes. -/
structure ActionParams where
  difficultyTier : Int
  streakCount : Int
deriving DecidableEq

/-- Modelled from the spec: an Action Request
`{userId, actionType, actionParams, clientTimestamp, nonce, signature}`. -/
structure ActionRequest where
  userId : Nat
  actionType : Nat
  actionParams : ActionParams
  clientTimestamp : Nat
  nonce : Nat
  signature : Nat
deriving DecidableEq

/-! ### Score Calculator (spec section 4.3) -/

/-- Modelled from the spec: the Score Calculator's configuration table —
per-actionType base values and absolute delta bounds, plus the configured
multiplier range; `knownAction` marks the fixed actionType table. -/
structure ScoreConfig where
  knownAction : Nat → Bool
  baseValue : Nat → Int
  multMin : Int
  multMax : Int
  minDelta : Nat → Int
  maxDelta : Nat → Int

/-- Clamp `x` into `[lo, hi]`. -/
def clampInt (lo hi x : Int) : Int := max lo (min x hi)

/-- Modelled from the spec: the Score Calculator — base value from the
per-actionType table, multiplied by the declared multipliers bounded to the
configured range, then clamped to the per-actionType `[minDelta, maxDelta]`.
The second component is the clamp risk signal (true when clamping changed
the computed value). -/
def computeDelta (cfg : ScoreConfig) (actionType : Nat) (p : ActionParams) : Int × Bool :=
  let m1 := clampInt cfg.multMin cfg.multMax p.difficultyTier
  let m2 := clampInt cfg.multMin cfg.multMax p.streakCount
  let raw := cfg.baseValue actionType * m1 * m2
  let d := clampInt (cfg.minDelta actionType) (cfg.maxDelta actionType) raw
  (d, !(d == raw))

/-- Modelled from the spec: the calculator as invoked on a full request — it
reads nothing of the request but `actionType` and `actionParams`. -/
def calcDelta (cfg : ScoreConfig) (req : ActionRequest) : Int × Bool :=
  computeDelta cfg req.actionType req.actionParams

/-- Claim C3: the score delta is a pure function of
`(actionType, actionParams)` — two evaluations of the Score Calculator on
requests with identical actionType and actionParams return identical results,
whatever the other request fields (timestamps, nonces, signatures, users). -/
theorem calcDelta_pure (cfg : ScoreConfig) (r1 r2 : ActionRequest)
    (ht : r1.actionType = r2.actionType) (hp : r1.actionParams = r2.actionParams) :
    calcDelta cfg r1 = calcDelta cfg r2 := by
  unfold calcDelta
  rw [ht, hp]

/-- Witness for C3: two requests agreeing only on actionType and actionParams
get the same delta. -/
theorem calcDelta_pure_witness :
    calcDelta ⟨fun _ => true, fun _ => 10, 1, 3, fun _ => 0, fun _ => 25⟩
        ⟨1, 2, ⟨2, 5⟩, 100, 7, 999⟩ =
      calcDelta ⟨fun _ => true, fun _ => 10, 1, 3, fun _ => 0, fun _ => 25⟩
        ⟨8, 2, ⟨2, 5⟩, 4242, 13, 31337⟩ :=
  calcDelta_pure _ _ _ (by decide) (by decide)

/-! ### Rate Limiter (spec section 4.2) -/

/-- Modelled from the spec: per-key sliding-window state — the recorded
timestamps (bounded circular buffer, newest first) and the violation
counter. -/
structure RLState where
  stamps : List Nat
  violations : Nat
deriving DecidableEq

/-- The empty rate-limiter state for a key. -/
def rlInit : RLState := ⟨[], 0⟩

/-- Modelled from the spec: the number of recorded timestamps inside the
trailing window `(now - window, now]`. -/
def windowCount (window : Nat) (now : Nat) (stamps : List Nat) : Nat :=
  (stamps.filter (fun t => now < t + window)).length

/-- Modelled from the spec: admission — the count of entries within the
trailing window must be below the configured cap. -/
def rlAdmit (cap window : Nat) (now : Nat) (st : RLState) : Bool :=
  windowCount window now st.stamps < cap

/-- Modelled from the spec: one submission against a key — if admitted, record
the timestamp; else reject (`RateLimited`) and increment the violation
counter. -/
def rlSubmit (cap window : Nat) (now : Nat) (st : RLState) : Bool × RLState :=
  if rlAdmit cap window now st then
    (true, ⟨now :: st.stamps, st.violations⟩)
  else
    (false, ⟨st.stamps, st.violations + 1⟩)

/-- Runs a sequence of submissions against one key, returning the admission
verdicts in order. -/
def rlRun (cap window : Nat) (times : List Nat) (st : RLState) : List Bool :=
  match times with
  | [] => []
  | t :: ts =>
      let r := rlSubmit cap window t st
      r.1 :: rlRun cap window ts r.2

/-- Claim C6: an action is admitted iff the count of recorded timestamps in
the trailing window is below the cap; in particular six actions inside a
60-second window under a 5-per-minute cap see the first five admitted and the
sixth rejected. -/
theorem rlSubmit_iff_below_cap (cap window : Nat) (now : Nat) (st : RLState) :
    ((rlSubmit cap window now st).1 = true ↔
      windowCount window now st.stamps < cap) ∧
    rlRun 5 60 [0, 10, 20, 30, 40, 50] rlInit =
      [true, true, true, true, true, false] := by
  constructor
  · unfold rlSubmit rlAdmit
    split <;> simp_all
  · decide

/-! ### Event Broadcaster (spec section 4.6) -/

/-- Modelled from the spec: a minimal delta event kind
(`entered`, `left`, `moved(oldRank, newRank)`). -/
inductive DeltaKind where
  | entered (u : Nat) (rank : Nat)
  | left (u : Nat) (oldRank : Nat)
  | moved (u : Nat) (oldRank newRank : Nat)
deriving DecidableEq

/-- Modelled from the spec: a generation-stamped delta event emitted after a
Ranking Engine commit. -/
structure RankEvent where
  generation : Nat
  kind : DeltaKind
deriving DecidableEq

/-- Modelled from the spec: the per-subscriber delivery gate — the subscriber
remembers the highest generation delivered so far; an event superseded by a
newer generation before delivery (its generation strictly below that mark) is
dropped, every other event is delivered and advances the mark. -/
def deliverFrom (lastGen : Nat) : List RankEvent → List RankEvent
  | [] => []
  | e :: es =>
      if e.generation < lastGen then deliverFrom lastGen es
      else e :: deliverFrom e.generation es

theorem deliverFrom_sublist_and_mono (g : Nat) (evs : List RankEvent) :
    (deliverFrom g evs).Sublist evs ∧
      (deliverFrom g evs).Pairwise (fun a b => a.generation ≤ b.generation) ∧
      ∀ e ∈ deliverFrom g evs, g ≤ e.generation := by
  induction evs generalizing g with
  | nil => simp [deliverFrom]
  | cons e es ih =>
      by_cases h : e.generation < g
      · have ⟨h1, h2, h3⟩ := ih g
        refine ⟨?_, ?_, ?_⟩
        · simpa [deliverFrom, h] using h1.cons e
        · simpa [deliverFrom, h] using h2
        · intro x hx
          rw [deliverFrom] at hx
          rw [if_pos h] at hx
          exact h3 x hx
      · have ⟨h1, h2, h3⟩ := ih e.generation
        have hgoal : deliverFrom g (e :: es) = e :: deliverFrom e.generation es := by
          rw [deliverFrom, if_neg h]
        refine ⟨?_, ?_, ?_⟩
        · rw [hgoal]; exact h1.cons₂ e
        · rw [hgoal]
          exact List.Pairwise.cons (fun x hx => h3 x hx) h2
        · intro x hx
          rw [hgoal] at hx
          rcases List.mem_cons.1 hx with hx | hx
          · subst hx; omega
          · have := h3 x hx
            omega

/-- Claim C7: under the per-subscriber delivery gate, every event of the
incoming stream is delivered at most once (the delivered stream is a sublist
of the incoming one), delivered generations are non-decreasing in delivery
order, and events superseded before delivery are dropped, never delivered out
of order. -/
theorem broadcaster_order (g : Nat) (evs : List RankEvent) :
    (deliverFrom g evs).Sublist evs ∧
      (deliverFrom g evs).Pairwise (fun a b => a.generation ≤ b.generation) :=
  ⟨(deliverFrom_sublist_and_mono g evs).1, (deliverFrom_sublist_and_mono g evs).2.1⟩

/-! ### Ranking Engine (spec section 4.5) -/

/-- Modelled from the spec: the ranking order — totalScore descending, userId
ascending as the deterministic tie-break.  `keyLE a b` holds when `a` comes
no later than `b` in ranking order. -/
def keyLE (a b : Nat × Int) : Prop :=
  b.2 < a.2 ∨ (a.2 = b.2 ∧ a.1 ≤ b.1)

instance : DecidableRel keyLE := fun a b =>
  decidable_of_iff (b.2 < a.2 ∨ (a.2 = b.2 ∧ a.1 ≤ b.1)) Iff.rfl

instance : IsTotal (Nat × Int) keyLE :=
  ⟨fun a b => by
    obtain ⟨a1, a2⟩ := a
    obtain ⟨b1, b2⟩ := b
    unfold keyLE
    dsimp only
    omega⟩

instance : IsTrans (Nat × Int) keyLE :=
  ⟨fun a b c h1 h2 => by
    obtain ⟨a1, a2⟩ := a
    obtain ⟨b1, b2⟩ := b
    obtain ⟨c1, c2⟩ := c
    unfold keyLE at *
    dsimp only at *
    omega⟩

instance : IsAntisymm (Nat × Int) keyLE :=
  ⟨fun a b h1 h2 => by
    obtain ⟨a1, a2⟩ := a
    obtain ⟨b1, b2⟩ := b
    unfold keyLE at *
    dsimp only at *
    have h3 : a1 = b1 ∧ a2 = b2 := by omega
    rw [h3.1, h3.2]⟩

/-- Modelled from the spec: the total the ledger determines for user `u` —
the sum of the deltas of `u`'s entries with accepted outcome ("totalScore
changes only by appending a ledger entry with an accepted outcome"). -/
def ledgerTotal (L : List LedgerEntry) (u : Nat) : Int :=
  ((L.filter (fun e => e.userId == u && e.outcome == Outcome.accepted)).map
    (fun e => e.delta)).sum

/-- The users appearing in a ledger, each once. -/
def ledgerUsers (L : List LedgerEntry) : List Nat :=
  (L.map (fun e => e.userId)).dedup

/-- The (userId, total) pairs a ledger determines, one pair per user, each
entry contributing to exactly one total. -/
def aggregate (L : List LedgerEntry) : List (Nat × Int) :=
  (ledgerUsers L).map (fun u => (u, ledgerTotal L u))

/-- Modelled from the spec: the Ranking Engine state — the write-ahead ledger
of committed entries in commit order, the incrementally maintained ordered
table, and the global generation counter incremented on each commit. -/
structure RankState where
  ledger : List LedgerEntry
  table : List (Nat × Int)
  generation : Nat

/-- The empty ranking engine. -/
def rankInit : RankState := ⟨[], [], 0⟩

/-- Modelled from the spec: `upsert(userId, newTotal)` — the user's previous
position is removed and the new pair inserted at its ordered position. -/
def upsert (u : Nat) (t : Int) (table : List (Nat × Int)) : List (Nat × Int) :=
  List.orderedInsert keyLE (u, t) (table.filter (fun p => p.1 != u))

/-- Modelled from the spec: committing one entry — append to the ledger
(write-ahead), upsert the user's ledger-derived total, increment the
generation counter. -/
def rankCommit (st : RankState) (e : LedgerEntry) : RankState :=
  ⟨st.ledger ++ [e],
    upsert e.userId (ledgerTotal (st.ledger ++ [e]) e.userId) st.table,
    st.generation + 1⟩

/-- The engine state after committing a sequence of entries from cold start. -/
def rankExec (es : List LedgerEntry) : RankState :=
  es.foldl rankCommit rankInit

/-- Modelled from the spec: `topN(k)` — the k highest entries of the current
snapshot together with its generation. -/
def topN (k : Nat) (st : RankState) : List (Nat × Int) × Nat :=
  (st.table.take k, st.generation)

/-- The specification-side reading of `topN`: the k highest user totals among
a given set of ledger entries, in ranking order. -/
def specTopN (k : Nat) (L : List LedgerEntry) : List (Nat × Int) :=
  (List.insertionSort keyLE (aggregate L)).take k

theorem ledgerTotal_append_ne (L : List LedgerEntry) (e : LedgerEntry) (v : Nat)
    (h : v ≠ e.userId) : ledgerTotal (L ++ [e]) v = ledgerTotal L v := by
  have he : (e.userId == v) = false := by
    simp only [beq_eq_false_iff_ne, ne_eq]
    exact fun hv => h hv.symm
  simp [ledgerTotal, List.filter_append, he]

theorem mem_ledgerUsers (L : List LedgerEntry) (v : Nat) :
    v ∈ ledgerUsers L ↔ ∃ e ∈ L, e.userId = v := by
  unfold ledgerUsers
  rw [List.mem_dedup, List.mem_map]

theorem nodup_ledgerUsers (L : List LedgerEntry) : (ledgerUsers L).Nodup :=
  List.nodup_dedup _

theorem aggregate_append_perm (L : List LedgerEntry) (e : LedgerEntry) :
    (aggregate (L ++ [e])).Perm
      ((e.userId, ledgerTotal (L ++ [e]) e.userId) ::
        (aggregate L).filter (fun p => p.1 != e.userId)) := by
  have hfm : (aggregate L).filter (fun p => p.1 != e.userId) =
      ((ledgerUsers L).filter (fun v => v != e.userId)).map
        (fun v => (v, ledgerTotal L v)) := by
    unfold aggregate
    rw [List.filter_map]
    rfl
  have hcongr :
      ((ledgerUsers L).filter (fun v => v != e.userId)).map
          (fun v => (v, ledgerTotal L v)) =
        ((ledgerUsers L).filter (fun v => v != e.userId)).map
          (fun v => (v, ledgerTotal (L ++ [e]) v)) := by
    apply List.map_congr_left
    intro v hv
    have hvne : v ≠ e.userId := by
      have := List.of_mem_filter hv
      simpa using this
    rw [ledgerTotal_append_ne L e v hvne]
  have hnd2 : (e.userId :: (ledgerUsers L).filter (fun v => v != e.userId)).Nodup := by
    refine List.Nodup.cons ?_ ((nodup_ledgerUsers L).filter _)
    intro hmem
    have := List.of_mem_filter hmem
    simp at this
  have hperm : (ledgerUsers (L ++ [e])).Perm
      (e.userId :: (ledgerUsers L).filter (fun v => v != e.userId)) := by
    refine (List.perm_ext_iff_of_nodup (nodup_ledgerUsers _) hnd2).2 ?_
    intro x
    rw [mem_ledgerUsers]
    constructor
    · rintro ⟨en, hen, hx⟩
      rcases List.mem_append.1 hen with hin | hin
      · by_cases hxu : x = e.userId
        · subst hxu
          exact List.mem_cons_self _ _
        · refine List.mem_cons_of_mem _ (List.mem_filter.2 ⟨?_, by simpa using hxu⟩)
          exact (mem_ledgerUsers L x).2 ⟨en, hin, hx⟩
      · simp at hin
        subst hin
        rw [← hx]
        exact List.mem_cons_self _ _
    · intro hx
      rcases List.mem_cons.1 hx with hx | hx
      · subst hx
        exact ⟨e, List.mem_append.2 (Or.inr (List.mem_singleton.2 rfl)), rfl⟩
      · have hmem := List.mem_filter.1 hx
        obtain ⟨en, hen, hx2⟩ := (mem_ledgerUsers L x).1 hmem.1
        exact ⟨en, List.mem_append.2 (Or.inl hen), hx2⟩
  have hmapped : ((e.userId :: (ledgerUsers L).filter (fun v => v != e.userId)).map
      (fun v => (v, ledgerTotal (L ++ [e]) v))) =
      (e.userId, ledgerTotal (L ++ [e]) e.userId) ::
        (aggregate L).filter (fun p => p.1 != e.userId) := by
    rw [List.map_cons, hfm, hcongr]
  have final := hperm.map (fun v => (v, ledgerTotal (L ++ [e]) v))
  rw [hmapped] at final
  exact final

theorem upsert_step (L : List LedgerEntry) (e : LedgerEntry) :
    upsert e.userId (ledgerTotal (L ++ [e]) e.userId)
        (List.insertionSort keyLE (aggregate L)) =
      List.insertionSort keyLE (aggregate (L ++ [e])) := by
  have p1 : (upsert e.userId (ledgerTotal (L ++ [e]) e.userId)
      (List.insertionSort keyLE (aggregate L))).Perm
        ((e.userId, ledgerTotal (L ++ [e]) e.userId) ::
          (List.insertionSort keyLE (aggregate L)).filter
            (fun p => p.1 != e.userId)) := List.perm_orderedInsert _ _ _
  have p2 : ((e.userId, ledgerTotal (L ++ [e]) e.userId) ::
      (List.insertionSort keyLE (aggregate L)).filter
        (fun p => p.1 != e.userId)).Perm
        ((e.userId, ledgerTotal (L ++ [e]) e.userId) ::
          (aggregate L).filter (fun p => p.1 != e.userId)) :=
    ((List.perm_insertionSort keyLE _).filter _).cons _
  have hperm2 := ((p1.trans p2).trans (aggregate_append_perm L e).symm).trans
    (List.perm_insertionSort keyLE (aggregate (L ++ [e]))).symm
  have hs1 : List.Sorted keyLE (upsert e.userId (ledgerTotal (L ++ [e]) e.userId)
      (List.insertionSort keyLE (aggregate L))) :=
    List.Sorted.orderedInsert _ _
      ((List.sorted_insertionSort keyLE (aggregate L)).filter _)
  have hs2 : List.Sorted keyLE (List.insertionSort keyLE (aggregate (L ++ [e]))) :=
    List.sorted_insertionSort keyLE _
  exact List.eq_of_perm_of_sorted hperm2 hs1 hs2

theorem rankExec_foldl_table (es : List LedgerEntry) :
    ∀ st : RankState, st.table = List.insertionSort keyLE (aggregate st.ledger) →
      (es.foldl rankCommit st).table =
        List.insertionSort keyLE (aggregate (es.foldl rankCommit st).ledger) := by
  induction es with
  | nil => intro st h; simpa using h
  | cons e es ih =>
      intro st h
      have hstep : (rankCommit st e).table =
          List.insertionSort keyLE (aggregate (rankCommit st e).ledger) := by
        unfold rankCommit
        dsimp
        rw [h]
        exact upsert_step st.ledger e
      simpa using ih (rankCommit st e) hstep

theorem rankExec_foldl_ledger (es : List LedgerEntry) :
    ∀ st : RankState, (es.foldl rankCommit st).ledger = st.ledger ++ es := by
  induction es with
  | nil => intro st; simp
  | cons e es ih =>
      intro st
      simp only [List.foldl_cons]
      rw [ih (rankCommit st e)]
      simp [rankCommit]

theorem rankExec_foldl_gen (es : List LedgerEntry) :
    ∀ st : RankState, (es.foldl rankCommit st).generation = st.generation + es.length := by
  induction es with
  | nil => intro st; simp
  | cons e es ih =>
      intro st
      simp only [List.foldl_cons]
      rw [ih (rankCommit st e)]
      simp [rankCommit]
      omega

/-- Claim C1: after any sequence of commits, `topN k` returns exactly the k
highest user totals determined by the ledger entries committed at or before
the generation returned with the snapshot — each committed entry contributing
to its user's total exactly once (`aggregate` folds each entry once), none
lost, none duplicated — in ranking order. -/
theorem topN_matches_ledger (es : List LedgerEntry) (k : Nat) :
    (rankExec es).ledger = es ∧
    (topN k (rankExec es)).2 = es.length ∧
    (topN k (rankExec es)).1 =
      specTopN k ((rankExec es).ledger.take (topN k (rankExec es)).2) := by
  have hled : (rankExec es).ledger = es := by
    unfold rankExec
    rw [rankExec_foldl_ledger es rankInit]
    simp [rankInit]
  have hgen : (rankExec es).generation = es.length := by
    unfold rankExec
    rw [rankExec_foldl_gen es rankInit]
    simp [rankInit]
  have htab : (rankExec es).table =
      List.insertionSort keyLE (aggregate (rankExec es).ledger) := by
    unfold rankExec
    exact rankExec_foldl_table es rankInit (by rfl)
  refine ⟨hled, hgen, ?_⟩
  show (rankExec es).table.take k =
    specTopN k ((rankExec es).ledger.take (rankExec es).generation)
  rw [hgen, hled, List.take_length, htab, hled]
  rfl

/-! ### Anti-Cheat Evaluator (spec section 4.4) -/

/-- Modelled from the spec: one ring-buffer entry of a Risk Profile:
(timestamp, delta, actionType) of a recent accepted event. -/
structure RiskEvent where
  timestamp : Nat
  delta : Int
  actionType : Nat
deriving DecidableEq

/-- Modelled from the spec: the per-user Risk Profile — riskScore, ring
buffer of recent accepted events (newest first), strikeCount, banUntil, and
the time of the last evaluation (for decay). -/
structure RiskProfile where
  riskScore : ℚ
  events : List RiskEvent
  strikeCount : Nat
  banUntil : Option Nat
  lastEval : Nat
deriving DecidableEq

/-- Modelled from the spec: the externally configurable anti-cheat policy —
decay, per-actionType velocity ceilings, the allowed-successor transition
table, minimum plausible durations, flag weights, thresholds T1 ≤ T2, strike
limit, ban duration, ring-buffer capacity and the rate-limiter violation
threshold. -/
structure RiskConfig where
  decayFactor : ℚ
  decayPeriod : Nat
  velocityWindow : Nat
  velocityCeiling : Nat → Int
  allowedSuccessor : Nat → Nat → Bool
  minPlausibleDuration : Nat → Nat
  weightVelocity : ℚ
  weightSequence : ℚ
  weightTiming : ℚ
  weightClamp : ℚ
  weightViolation : ℚ
  t1 : ℚ
  t2 : ℚ
  strikeLimit : Nat
  banDuration : Nat
  ringCap : Nat
  violationLimit : Nat

/-- Modelled from the spec: exponential decay toward zero —
`risk * decayFactor ^ (elapsed decay periods)`. -/
def decayedRisk (cfg : RiskConfig) (p : RiskProfile) (now : Nat) : ℚ :=
  p.riskScore * cfg.decayFactor ^ ((now - p.lastEval) / cfg.decayPeriod)

/-- Modelled from the spec: the weighted flags an evaluation produces —
velocity (trailing-window delta sum over the window length exceeds the
actionType ceiling), sequence (actionType not an allowed successor of the
previous one), timing (elapsed time below the minimum plausible duration),
plus the clamp signal from the Score Calculator and the violation signal
from the Rate Limiter. -/
def flagsFor (cfg : RiskConfig) (p : RiskProfile) (actionType : Nat) (delta : Int)
    (now : Nat) (clampSignal violationSignal : Bool) : List ℚ :=
  (if (delta + ((p.events.filter (fun ev => now < ev.timestamp + cfg.velocityWindow)).map
        (fun ev => ev.delta)).sum) >
      cfg.velocityCeiling actionType * (cfg.velocityWindow : Int)
    then [cfg.weightVelocity] else []) ++
  (match p.events with
    | [] => []
    | prev :: _ =>
        if cfg.allowedSuccessor prev.actionType actionType then [] else [cfg.weightSequence]) ++
  (match p.events with
    | [] => []
    | prev :: _ =>
        if now - prev.timestamp < cfg.minPlausibleDuration actionType
        then [cfg.weightTiming] else []) ++
  (if clampSignal then [cfg.weightClamp] else []) ++
  (if violationSignal then [cfg.weightViolation] else [])

/-- Modelled from the spec: the decision ladder outcome. -/
inductive Decision where
  | accept
  | review
  | reject
deriving DecidableEq

/-- Modelled from the spec: one evaluation — the decayed risk plus the sum of
the produced flag weights, and the decision ladder (below T1 accept, below T2
accept with review marker, otherwise reject). -/
def evaluate (cfg : RiskConfig) (p : RiskProfile) (actionType : Nat) (delta : Int)
    (now : Nat) (clampSignal violationSignal : Bool) : ℚ × Decision :=
  let r := decayedRisk cfg p now +
    (flagsFor cfg p actionType delta now clampSignal violationSignal).sum
  (r, if r < cfg.t1 then .accept else if r < cfg.t2 then .review else .reject)

/-! ### Action Ingest Gate and the full pipeline (spec sections 4.1, 5, 6, 7) -/

/-- Modelled from the spec: the identity the external credential-verification
capability answers — `verify(token) -> userId, expiry`. -/
structure VerifiedIdentity where
  userId : Nat
  expiry : Nat
deriving DecidableEq

/-- Modelled from the spec: the external collaborators the gate consults —
here just the credential-verification capability. -/
structure Env where
  verify : Nat → Option VerifiedIdentity

/-- Modelled from the spec: a canonical encoding of the request body (every
signed field; the signature itself is not part of the signed body). -/
def canonicalEncoding (r : ActionRequest) : List Nat :=
  [r.userId, r.actionType, r.actionParams.difficultyTier.natAbs,
    if r.actionParams.difficultyTier < 0 then 1 else 0,
    r.actionParams.streakCount.natAbs,
    if r.actionParams.streakCount < 0 then 1 else 0,
    r.clientTimestamp, r.nonce]

/-- Modelled from the spec: a keyed message-authentication digest; the spec
mandates no concrete primitive ("any keyed message-authentication scheme
suffices"), so a simple keyed polynomial digest stands in. -/
def macDigest (key : Nat) (msg : List Nat) : Nat :=
  msg.foldl (fun h x => (h * 31 + x + 1) % 1000003) (key % 1000003)

/-- The digest of a request body under the server key. -/
def sigOf (key : Nat) (r : ActionRequest) : Nat :=
  macDigest key (canonicalEncoding r)

/-- Modelled from the spec: per-user account state — totalScore, the
recent-nonce set (kept for the whole run, satisfying the required minimum
retention), lastAcceptedClientTimestamp, and the user's Risk Profile. -/
structure UserState where
  totalScore : Int
  nonces : List Nat
  lastAcceptedClientTimestamp : Nat
  risk : RiskProfile
deriving DecidableEq

/-- A fresh user. -/
def userInit : UserState := ⟨0, [], 0, ⟨0, [], 0, none, 0⟩⟩

/-- Modelled from the spec: the pipeline's configuration — signing key, clock
skew tolerance, rate-limit cap and window, anti-cheat and scoring policy. -/
structure Config where
  key : Nat
  skewTolerance : Nat
  cap : Nat
  window : Nat
  rcfg : RiskConfig
  scfg : ScoreConfig

/-- Modelled from the spec: the whole system state — per-user accounts,
per-user rate-limiter keys, and the Ranking Engine (the per-origin limiter
key, orthogonal to every claim, is not modelled). -/
structure SystemState where
  users : Nat → UserState
  rl : Nat → RLState
  rank : RankState

/-- Replaces one user's state. -/
def setUser (st : SystemState) (u : Nat) (us : UserState) : SystemState :=
  ⟨fun v => if v = u then us else st.users v, st.rl, st.rank⟩

/-- Replaces one rate-limiter key's state. -/
def setRL (st : SystemState) (u : Nat) (r : RLState) : SystemState :=
  ⟨st.users, fun v => if v = u then r else st.rl v, st.rank⟩

/-- Modelled from the spec: the error taxonomy of section 7 (the
`TransientError` of the external ledger store is outside the modelled,
always-acknowledging ledger). -/
inductive ErrKind where
  | authError
  | suspended
  | integrityError
  | rateLimited
  | validationError
  | anomalyRejected
deriving DecidableEq

/-- Modelled from the spec: the success response — scoreIncrease, newTotal,
and the non-blocking review marker. -/
structure SuccessInfo where
  scoreIncrease : Int
  newTotal : Int
  reviewMarker : Bool
deriving DecidableEq

/-- Modelled from the spec: check (1) — credential/session validity via the
external capability; the verified identity must be unexpired and match the
requesting user. -/
def authOk (env : Env) (token : Nat) (req : ActionRequest) (now : Nat) : Bool :=
  match env.verify token with
  | none => false
  | some v => decide (now < v.expiry) && decide (v.userId = req.userId)

/-- Modelled from the spec: check (2) — an active ban (`now < banUntil`). -/
def banActive (banUntil : Option Nat) (now : Nat) : Bool :=
  match banUntil with
  | none => false
  | some b => decide (now < b)

/-- Modelled from the spec: check (3) — recompute the keyed digest over the
canonical encoding and compare. -/
def sigOk (key : Nat) (req : ActionRequest) : Bool :=
  req.signature == sigOf key req

/-- Modelled from the spec: check (4) — the nonce must not be in the user's
recent-nonce set, and clientTimestamp must not be older than
`lastAcceptedClientTimestamp` minus the skew tolerance. -/
def replayOk (us : UserState) (req : ActionRequest) (skew : Nat) : Bool :=
  !(us.nonces.contains req.nonce) &&
    !(decide (req.clientTimestamp + skew < us.lastAcceptedClientTimestamp))

/-- Modelled from the spec: the Ingest Gate pipeline in control-flow order —
the four hard-boundary checks (credential with `AuthError`, ban with
`Suspended`, signature and replay/ordering with `IntegrityError`), each
short-circuiting with no state mutated; then the Rate Limiter (violation
recorded on `RateLimited`), actionType validation, the Score Calculator,
the Anti-Cheat evaluation (strike and possible ban recorded on
`AnomalyRejected`); on acceptance the entry is committed to the Ranking
Engine (write-ahead ledger append, upsert, generation increment) and only
then are the nonce recorded and `lastAcceptedClientTimestamp` advanced.
An expired ban resets the strike count with this request's profile update. -/
def processAction (cfg : Config) (env : Env) (st : SystemState) (token : Nat)
    (req : ActionRequest) (now : Nat) : Except ErrKind SuccessInfo × SystemState :=
  if authOk env token req now = false then (.error .authError, st)
  else if banActive (st.users req.userId).risk.banUntil now = true then
    (.error .suspended, st)
  else if sigOk cfg.key req = false then (.error .integrityError, st)
  else if replayOk (st.users req.userId) req cfg.skewTolerance = false then
    (.error .integrityError, st)
  else
    let us := st.users req.userId
    let strikes0 := if us.risk.banUntil.isSome then 0 else us.risk.strikeCount
    let rlres := rlSubmit cfg.cap cfg.window now (st.rl req.userId)
    let st1 := setRL st req.userId rlres.2
    if rlres.1 = false then (.error .rateLimited, st1)
    else if cfg.scfg.knownAction req.actionType = false then
      (.error .validationError, st1)
    else
      let dc := calcDelta cfg.scfg req
      let violationSignal := decide (cfg.rcfg.violationLimit ≤ rlres.2.violations)
      let ev := evaluate cfg.rcfg us.risk req.actionType dc.1 now dc.2 violationSignal
      if ev.2 == Decision.reject then
        (.error .anomalyRejected,
          setUser st1 req.userId
            ⟨us.totalScore, us.nonces, us.lastAcceptedClientTimestamp,
              ⟨ev.1, us.risk.events, strikes0 + 1,
                if cfg.rcfg.strikeLimit ≤ strikes0 + 1
                then some (now + cfg.rcfg.banDuration) else none,
                now⟩⟩)
      else
        let newTotal := us.totalScore + dc.1
        let st2 := setUser st1 req.userId
          ⟨newTotal, req.nonce :: us.nonces,
            max us.lastAcceptedClientTimestamp req.clientTimestamp,
            ⟨ev.1, (⟨now, dc.1, req.actionType⟩ :: us.risk.events).take cfg.rcfg.ringCap,
              strikes0, none, now⟩⟩
        (.ok ⟨dc.1, newTotal, ev.2 == Decision.review⟩,
          ⟨st2.users, st2.rl,
            rankCommit st2.rank
              ⟨req.userId, req.actionType, dc.1, newTotal, now, req.nonce,
                Outcome.accepted⟩⟩)
set_option maxHeartbeats 1600000 in
/-- Claim C4: the four gate checks are hard boundaries — the first failing
check answers its typed error with the system state untouched — and the nonce
is recorded and `lastAcceptedClientTimestamp` advanced only when the full
pipeline through the Ranking Engine commit succeeds: never on any error, and
exactly then on success. -/
theorem gate_short_circuit (cfg : Config) (env : Env) (st : SystemState) (token : Nat)
    (req : ActionRequest) (now : Nat) :
    (authOk env token req now = false →
      processAction cfg env st token req now = (.error .authError, st)) ∧
    (authOk env token req now = true →
      banActive (st.users req.userId).risk.banUntil now = true →
      processAction cfg env st token req now = (.error .suspended, st)) ∧
    (authOk env token req now = true →
      banActive (st.users req.userId).risk.banUntil now = false →
      sigOk cfg.key req = false →
      processAction cfg env st token req now = (.error .integrityError, st)) ∧
    (authOk env token req now = true →
      banActive (st.users req.userId).risk.banUntil now = false →
      sigOk cfg.key req = true →
      replayOk (st.users req.userId) req cfg.skewTolerance = false →
      processAction cfg env st token req now = (.error .integrityError, st)) ∧
    (∀ e st', processAction cfg env st token req now = (.error e, st') →
      (st'.users req.userId).nonces = (st.users req.userId).nonces ∧
      (st'.users req.userId).lastAcceptedClientTimestamp =
        (st.users req.userId).lastAcceptedClientTimestamp ∧
      (st'.users req.userId).totalScore = (st.users req.userId).totalScore) ∧
    (∀ info st', processAction cfg env st token req now = (.ok info, st') →
      (st'.users req.userId).nonces = req.nonce :: (st.users req.userId).nonces ∧
      (st'.users req.userId).lastAcceptedClientTimestamp =
        max (st.users req.userId).lastAcceptedClientTimestamp req.clientTimestamp) := by
  refine ⟨?_, ?_, ?_, ?_, ?_, ?_⟩
  · intro h1
    simp [processAction, h1]
  · intro h1 h2
    simp [processAction, h1, h2]
  · intro h1 h2 h3
    simp [processAction, h1, h2, h3]
  · intro h1 h2 h3 h4
    simp [processAction, h1, h2, h3, h4]
  · intro e st' hres
    simp only [processAction] at hres
    split at hres
    · simp only [Prod.mk.injEq] at hres
      obtain ⟨-, rfl⟩ := hres
      exact ⟨rfl, rfl, rfl⟩
    · split at hres
      · simp only [Prod.mk.injEq] at hres
        obtain ⟨-, rfl⟩ := hres
        exact ⟨rfl, rfl, rfl⟩
      · split at hres
        · simp only [Prod.mk.injEq] at hres
          obtain ⟨-, rfl⟩ := hres
          exact ⟨rfl, rfl, rfl⟩
        · split at hres
          · simp only [Prod.mk.injEq] at hres
            obtain ⟨-, rfl⟩ := hres
            exact ⟨rfl, rfl, rfl⟩
          · split at hres
            · simp only [Prod.mk.injEq] at hres
              obtain ⟨-, rfl⟩ := hres
              exact ⟨rfl, rfl, rfl⟩
            · split at hres
              · simp only [Prod.mk.injEq] at hres
                obtain ⟨-, rfl⟩ := hres
                exact ⟨rfl, rfl, rfl⟩
              · split at hres
                · simp only [Prod.mk.injEq] at hres
                  obtain ⟨-, rfl⟩ := hres
                  simp [setUser]
                · simp only [Prod.mk.injEq] at hres
                  exact Except.noConfusion hres.1
  · intro info st' hres
    simp only [processAction] at hres
    split at hres
    · simp only [Prod.mk.injEq] at hres
      exact Except.noConfusion hres.1
    · split at hres
      · simp only [Prod.mk.injEq] at hres
        exact Except.noConfusion hres.1
      · split at hres
        · simp only [Prod.mk.injEq] at hres
          exact Except.noConfusion hres.1
        · split at hres
          · simp only [Prod.mk.injEq] at hres
            exact Except.noConfusion hres.1
          · split at hres
            · simp only [Prod.mk.injEq] at hres
              exact Except.noConfusion hres.1
            · split at hres
              · simp only [Prod.mk.injEq] at hres
                exact Except.noConfusion hres.1
              · split at hres
                · simp only [Prod.mk.injEq] at hres
                  exact Except.noConfusion hres.1
                · simp only [Prod.mk.injEq] at hres
                  obtain ⟨-, rfl⟩ := hres
                  simp [setUser]

/-- A concrete scoring table for evaluations. -/
def scfgW : ScoreConfig := ⟨fun _ => true, fun _ => 10, 1, 3, fun _ => 0, fun _ => 25⟩

/-- A concrete anti-cheat policy for evaluations. -/
def rcfgW : RiskConfig :=
  ⟨1, 10, 60, fun _ => 100, fun _ _ => true, fun _ => 0,
    1, 1, 1, 1, 1, 5, 10, 3, 50, 3, 10⟩

/-- A concrete pipeline configuration for evaluations. -/
def cfgW : Config := ⟨12, 10, 5, 60, rcfgW, scfgW⟩

/-- A concrete credential verifier: token 1 answers user 7 with expiry 100. -/
def envW : Env := ⟨fun t => if t = 1 then some ⟨7, 100⟩ else none⟩

/-- The request body user 7 signs (signature field zero before signing). -/
def reqBodyW : ActionRequest := ⟨7, 2, ⟨2, 2⟩, 55, 42, 0⟩

/-- The signed request of user 7 with nonce 42. -/
def reqW : ActionRequest := ⟨7, 2, ⟨2, 2⟩, 55, 42, sigOf 12 reqBodyW⟩

/-- User 7 after an accepted action that used nonce 42. -/
def usW : UserState := ⟨150, [42], 50, ⟨0, [], 0, none, 0⟩⟩

/-- A system in which user 7 has already used nonce 42. -/
def stW : SystemState := ⟨fun u => if u = 7 then usW else userInit, fun _ => rlInit, rankInit⟩

/-- Witness for C4: evaluates the theorem's first conjunct on a concrete
state with an unverifiable token. -/
theorem gate_short_circuit_witness :
    processAction cfgW envW stW 99 reqW 56 = (.error .authError, stW) :=
  (gate_short_circuit cfgW envW stW 99 reqW 56).1 (by decide)

/-- Claim C2 (amended): replaying an already-accepted (userId, nonce) pair is
always rejected and never changes totalScore; the rejection is
`IntegrityError` whenever the credential and ban checks pass (an invalid
credential or an active ban is reported first, as `AuthError` / `Suspended`,
because those checks precede the replay check). -/
theorem replay_rejected (cfg : Config) (env : Env) (st : SystemState) (token : Nat)
    (req : ActionRequest) (now : Nat)
    (hn : req.nonce ∈ (st.users req.userId).nonces) :
    (∃ e, (processAction cfg env st token req now).1 = .error e) ∧
    ((processAction cfg env st token req now).2.users req.userId).totalScore =
      (st.users req.userId).totalScore ∧
    (authOk env token req now = true →
      banActive (st.users req.userId).risk.banUntil now = false →
      (processAction cfg env st token req now).1 = .error .integrityError) := by
  have hro : replayOk (st.users req.userId) req cfg.skewTolerance = false := by
    unfold replayOk
    simp [hn]
  by_cases h1 : authOk env token req now = false
  · have hr : processAction cfg env st token req now = (.error .authError, st) := by
      simp [processAction, h1]
    rw [hr]
    exact ⟨⟨_, rfl⟩, rfl, fun ha _ => by rw [h1] at ha; exact Bool.noConfusion ha⟩
  · rw [Bool.not_eq_false] at h1
    by_cases h2 : banActive (st.users req.userId).risk.banUntil now = true
    · have hr : processAction cfg env st token req now = (.error .suspended, st) := by
        simp [processAction, h1, h2]
      rw [hr]
      exact ⟨⟨_, rfl⟩, rfl, fun _ hb => by rw [h2] at hb; exact Bool.noConfusion hb⟩
    · rw [Bool.not_eq_true] at h2
      by_cases h3 : sigOk cfg.key req = false
      · have hr : processAction cfg env st token req now = (.error .integrityError, st) := by
          simp [processAction, h1, h2, h3]
        rw [hr]
        exact ⟨⟨_, rfl⟩, rfl, fun _ _ => rfl⟩
      · rw [Bool.not_eq_false] at h3
        have hr : processAction cfg env st token req now = (.error .integrityError, st) := by
          simp [processAction, h1, h2, h3, hro]
        rw [hr]
        exact ⟨⟨_, rfl⟩, rfl, fun _ _ => rfl⟩

/-- Witness for C2: user 7 (valid credential, no ban) replays nonce 42 at a
state that has it recorded; the theorem applies and yields `IntegrityError`
with the total unchanged. -/
theorem replay_rejected_witness :
    (∃ e, (processAction cfgW envW stW 1 reqW 56).1 = .error e) ∧
    ((processAction cfgW envW stW 1 reqW 56).2.users 7).totalScore = 150 ∧
    (authOk envW 1 reqW 56 = true →
      banActive (stW.users 7).risk.banUntil 56 = false →
      (processAction cfgW envW stW 1 reqW 56).1 = .error .integrityError) :=
  replay_rejected cfgW envW stW 1 reqW 56 (by decide)

/-- User 7 while banned until 100, with nonce 42 already recorded. -/
def usB : UserState := ⟨150, [42], 50, ⟨0, [], 3, some 100, 0⟩⟩

/-- A system in which user 7 is banned and has used nonce 42. -/
def stB : SystemState := ⟨fun u => if u = 7 then usB else userInit, fun _ => rlInit, rankInit⟩

/-- Counterexample for C2 as stated: user 7 replays the already-accepted
nonce 42 while banned; the pipeline rejects with `Suspended`, not with
`IntegrityError`. -/
theorem replay_banned_counterexample :
    reqW.nonce ∈ (stB.users reqW.userId).nonces ∧
    (processAction cfgW envW stB 1 reqW 56).1 = .error .suspended ∧
    ErrKind.suspended ≠ ErrKind.integrityError := by
  refine ⟨by decide, by rfl, by decide⟩

/-- A quiet profile: risk 8, no recent events, no strikes, no ban. -/
def pQuiet : RiskProfile := ⟨8, [], 0, none, 0⟩

/-- Claim C5 (amended): riskScore increases only on a flag-producing
evaluation — with a decay factor in [0,1] and a non-negative risk, a
flag-free evaluation keeps the risk in [0, previous risk], decaying toward
zero; and while `now < banUntil` (the ban an anomaly-rejection strike at the
threshold sets) every action whose
credential check passes is rejected with `Suspended`, irrespective of every
later check (an invalid credential is reported first, as `AuthError`,
because the credential check precedes the ban check). -/
theorem risk_monotone_and_ban :
    (∀ (cfg : RiskConfig) (p : RiskProfile) (actionType : Nat) (delta : Int)
        (now : Nat) (cs vs : Bool),
      flagsFor cfg p actionType delta now cs vs = [] →
      0 ≤ cfg.decayFactor → cfg.decayFactor ≤ 1 → 0 ≤ p.riskScore →
      0 ≤ (evaluate cfg p actionType delta now cs vs).1 ∧
        (evaluate cfg p actionType delta now cs vs).1 ≤ p.riskScore) ∧
    (∀ (cfg : Config) (env : Env) (st : SystemState) (token : Nat)
        (req : ActionRequest) (now : Nat),
      authOk env token req now = true →
      banActive (st.users req.userId).risk.banUntil now = true →
      processAction cfg env st token req now = (.error .suspended, st)) := by
  refine ⟨?_, ?_⟩
  · intro cfg p actionType delta now cs vs hfl h0 hone hp
    unfold evaluate
    rw [hfl]
    simp only [List.sum_nil, add_zero]
    unfold decayedRisk
    refine ⟨mul_nonneg hp (pow_nonneg h0 _), ?_⟩
    exact mul_le_of_le_one_right hp (pow_le_one₀ h0 hone)
  · intro cfg env st token req now h1 h2
    simp [processAction, h1, h2]

/-- Witness for C5: a flag-free evaluation of a quiet profile stays within
[0, previous risk], and banned user 7 submitting with a valid credential is
rejected `Suspended` with nothing changed. -/
theorem risk_monotone_and_ban_witness :
    (0 ≤ (evaluate rcfgW pQuiet 2 10 5 false false).1 ∧
      (evaluate rcfgW pQuiet 2 10 5 false false).1 ≤ pQuiet.riskScore) ∧
    processAction cfgW envW stB 1 reqW 60 = (.error .suspended, stB) :=
  ⟨risk_monotone_and_ban.1 rcfgW pQuiet 2 10 5 false false
      (by decide) (by decide) (by decide) (by decide),
    risk_monotone_and_ban.2 cfgW envW stB 1 reqW 60 (by decide) (by decide)⟩

/-- Counterexample for C5 as stated: while banned (now < banUntil) user 7
submits with an unverifiable token; the rejection is `AuthError`, not
`Suspended`, because the credential check precedes the ban check. -/
theorem suspended_masked_counterexample :
    banActive (stB.users 7).risk.banUntil 56 = true ∧
    (processAction cfgW envW stB 99 reqW 56).1 = .error .authError ∧
    ErrKind.authError ≠ ErrKind.suspended := by
  refine ⟨by decide, by rfl, by decide⟩
